import Mathlib

/-
Verification of the matgl structure-to-graph and property-prediction pipeline.

The repository ships the notebook callers and project configuration; the core
library (periodic graph builder, message-passing models, predict/save/load)
is not part of the shipped sources, so every definition below carrying a
"Modelled from the spec:" doc comment is a faithful transcription of the
corresponding contract in spec.md.  Coordinates live in an arbitrary linearly
ordered commutative ring R (instantiated at ℤ for concrete evaluations, and
standing in for the IEEE reals of the implementation); all distance
comparisons are carried out on squared Euclidean distances, which avoids
square roots without changing any of the stated inequalities.
-/

namespace MatglSpec

/-- Three-component vector over the coordinate ring, as nested pairs so the
product instances provide componentwise addition, subtraction and zero. -/
abbrev V3 (R : Type) := R × R × R

/-- Integer lattice-translation offset (periodic image selector). -/
abbrev Offset3 := ℤ × ℤ × ℤ

variable {R : Type} [LinearOrderedCommRing R] {n : ℕ}

/-- Squared Euclidean norm of a vector. -/
def normSq (v : V3 R) : R := v.1 * v.1 + v.2.1 * v.2.1 + v.2.2 * v.2.2

/-- Scalar multiple of a vector. -/
def scale (c : R) (v : V3 R) : V3 R := (c * v.1, c * v.2.1, c * v.2.2)

/-- Scalar multiple by an integer, via the canonical ring map. -/
def intScale (c : ℤ) (v : V3 R) : V3 R := scale (c : R) v

/-- Periodic lattice: three basis (row) vectors. -/
structure Cell (R : Type) where
  a1 : V3 R
  a2 : V3 R
  a3 : V3 R

/-- Cartesian vector of the lattice translation with integer coefficients t. -/
def Cell.latVec (L : Cell R) (t : Offset3) : V3 R :=
  intScale t.1 L.a1 + (intScale t.2.1 L.a2 + intScale t.2.2 L.a3)

/-- Modelled from the spec: a Structure is a species list (element number per
atom), a periodic lattice, and Cartesian atomic positions (data model §3). -/
structure Crystal (R : Type) (n : ℕ) where
  species : Fin n → ℕ
  cell : Cell R
  pos : Fin n → V3 R

/-- Squared Euclidean distance between atom i and the periodic image of atom j
translated by the lattice vector with integer coefficients t. -/
def imageDistSq (c : Crystal R n) (i j : Fin n) (t : Offset3) : R :=
  normSq (c.pos i - (c.pos j + Cell.latVec c.cell t))

/-- The zero lattice translation. -/
def zeroOff : Offset3 := (0, 0, 0)

/-- Modelled from the spec: the (i, j, t) pairings that yield a bond — the
image distance is within the cutoff (compared on squares), excluding the
degenerate pairing of an atom with itself at the zero translation, whose
distance is identically zero and which the data-model invariants (self-bonds
only to a distinct periodic image, empty graphs detected) rule out. -/
def pairWithin (c : Crystal R n) (r2 : R) (i j : Fin n) (t : Offset3) : Prop :=
  ¬(i = j ∧ t = zeroOff) ∧ imageDistSq c i j t ≤ r2

instance (c : Crystal R n) (r2 : R) (i j : Fin n) (t : Offset3) :
    Decidable (pairWithin c r2 i j t) :=
  inferInstanceAs (Decidable (¬(i = j ∧ t = zeroOff) ∧ imageDistSq c i j t ≤ r2))

/-- Directed bond: source atom, destination atom, periodic-image offset. -/
structure Bond (n : ℕ) where
  src : Fin n
  dst : Fin n
  offset : Offset3
deriving DecidableEq

/-- Integer interval [-B, B] as a list, the search range per lattice
direction for periodic-image enumeration. -/
def offsetsInt (B : ℕ) : List ℤ :=
  (List.range (2 * B + 1)).map fun k : ℕ => (k : ℤ) - (B : ℤ)

/-- All offsets (u, v, w) with a fixed u and v, and w ranging over [-B, B]. -/
def colList (B : ℕ) (u v : ℤ) : List Offset3 :=
  (offsetsInt B).map fun w => (u, v, w)

/-- All offsets (u, v, w) with a fixed u, and v, w ranging over [-B, B]. -/
def planeList (B : ℕ) (u : ℤ) : List Offset3 :=
  (offsetsInt B).flatMap fun v => colList B u v

/-- The full periodic-image search box [-B, B]³ as a list. -/
def offsetsBox (B : ℕ) : List Offset3 :=
  (offsetsInt B).flatMap fun u => planeList B u

/-- Bonds emitted from atom i to images of atom j: one bond per surviving
offset of the search box. -/
def bondsFor (c : Crystal R n) (r2 : R) (B : ℕ) (i j : Fin n) : List (Bond n) :=
  ((offsetsBox B).filter fun t => decide (pairWithin c r2 i j t)).map fun t =>
    { src := i, dst := j, offset := t }

/-- Modelled from the spec: the Periodic Graph Builder (§4.1) — for every atom
i, enumerate every atom j (possibly i itself) and every lattice translation t
of the search box, and emit one directed bond per (i, j, t) triple whose image
distance is within the cutoff.  B bounds the per-direction image search. -/
def buildBonds (c : Crystal R n) (r2 : R) (B : ℕ) : List (Bond n) :=
  (List.finRange n).flatMap fun i =>
    (List.finRange n).flatMap fun j => bondsFor c r2 B i j

/-- The search box [-B, B]³ as a finite set (used by the independent
brute-force ground truth, not by the builder). -/
def boxFinset (B : ℕ) : Finset Offset3 :=
  Finset.Icc (-(B : ℤ)) (B : ℤ) ×ˢ
    (Finset.Icc (-(B : ℤ)) (B : ℤ) ×ˢ Finset.Icc (-(B : ℤ)) (B : ℤ))

/-- Modelled from the spec: independent brute-force ground truth (§8) — for a
given atom i, the number of neighbor-image pairs (j, t) within the cutoff,
counted set-theoretically rather than by the builder's loops. -/
def bruteForceCount (c : Crystal R n) (r2 : R) (B : ℕ) (i : Fin n) : ℕ :=
  ∑ j : Fin n, ((boxFinset B).filter fun t => pairWithin c r2 i j t).card

theorem mem_offsetsInt {B : ℕ} {a : ℤ} :
    a ∈ offsetsInt B ↔ -(B : ℤ) ≤ a ∧ a ≤ (B : ℤ) := by
  unfold offsetsInt
  rw [List.mem_map]
  constructor
  · rintro ⟨k, hk, rfl⟩
    rw [List.mem_range] at hk
    omega
  · rintro ⟨h1, h2⟩
    refine ⟨(a + (B : ℤ)).toNat, ?_, ?_⟩
    · rw [List.mem_range]
      omega
    · omega

theorem nodup_offsetsInt (B : ℕ) : (offsetsInt B).Nodup := by
  unfold offsetsInt
  refine List.Nodup.map ?_ (List.nodup_range _)
  intro a b h
  dsimp only at h
  omega

theorem mem_colList {B : ℕ} {u v : ℤ} {t : Offset3} :
    t ∈ colList B u v ↔ t.1 = u ∧ t.2.1 = v ∧ t.2.2 ∈ offsetsInt B := by
  obtain ⟨x, y, z⟩ := t
  unfold colList
  simp only [List.mem_map, Prod.mk.injEq]
  constructor
  · rintro ⟨w, hw, rfl, rfl, rfl⟩
    exact ⟨rfl, rfl, hw⟩
  · rintro ⟨rfl, rfl, hz⟩
    exact ⟨z, hz, rfl, rfl, rfl⟩

theorem mem_planeList {B : ℕ} {u : ℤ} {t : Offset3} :
    t ∈ planeList B u ↔ t.1 = u ∧ t.2.1 ∈ offsetsInt B ∧ t.2.2 ∈ offsetsInt B := by
  unfold planeList
  simp only [List.mem_flatMap, mem_colList]
  constructor
  · rintro ⟨v, hv, h1, h2, h3⟩
    exact ⟨h1, h2 ▸ hv, h3⟩
  · rintro ⟨h1, h2, h3⟩
    exact ⟨t.2.1, h2, h1, rfl, h3⟩

theorem mem_offsetsBox {B : ℕ} {t : Offset3} :
    t ∈ offsetsBox B ↔ t ∈ boxFinset B := by
  unfold offsetsBox boxFinset
  simp only [List.mem_flatMap, mem_planeList, Finset.mem_product, Finset.mem_Icc]
  constructor
  · rintro ⟨u, hu, h1, h2, h3⟩
    exact ⟨h1 ▸ mem_offsetsInt.mp hu, mem_offsetsInt.mp h2, mem_offsetsInt.mp h3⟩
  · rintro ⟨h1, h2, h3⟩
    exact ⟨t.1, mem_offsetsInt.mpr h1, rfl, mem_offsetsInt.mpr h2, mem_offsetsInt.mpr h3⟩

theorem nodup_colList (B : ℕ) (u v : ℤ) : (colList B u v).Nodup := by
  unfold colList
  refine List.Nodup.map ?_ (nodup_offsetsInt B)
  intro a b h
  exact congrArg (fun t : Offset3 => t.2.2) h

theorem nodup_planeList (B : ℕ) (u : ℤ) : (planeList B u).Nodup := by
  unfold planeList
  refine List.nodup_flatMap.mpr ⟨fun v _ => nodup_colList B u v, ?_⟩
  refine (nodup_offsetsInt B).imp ?_
  intro v v' hvv t ht ht'
  exact hvv ((mem_colList.mp ht).2.1.symm.trans (mem_colList.mp ht').2.1)

theorem nodup_offsetsBox (B : ℕ) : (offsetsBox B).Nodup := by
  unfold offsetsBox
  refine List.nodup_flatMap.mpr ⟨fun u _ => nodup_planeList B u, ?_⟩
  refine (nodup_offsetsInt B).imp ?_
  intro u u' huu t ht ht'
  exact huu ((mem_planeList.mp ht).1.symm.trans (mem_planeList.mp ht').1)

theorem length_filter_eq_card {α : Type} [DecidableEq α] {l : List α} (hl : l.Nodup)
    {s : Finset α} (hmem : ∀ a, a ∈ l ↔ a ∈ s) (p : α → Prop) [DecidablePred p] :
    ((l.filter fun a => decide (p a)).length) = (s.filter p).card := by
  rw [← List.toFinset_card_of_nodup (hl.filter _)]
  congr 1
  ext a
  simp only [List.mem_toFinset, List.mem_filter, Finset.mem_filter, hmem,
    decide_eq_true_eq]

theorem countP_flatMap {α β : Type} (l : List α) (f : α → List β) (p : β → Bool) :
    ((l.flatMap f).countP p) = (l.map fun a => (f a).countP p).sum := by
  induction l with
  | nil => rfl
  | cons a l ih => simp [List.flatMap_cons, List.countP_append, ih]

theorem countP_bondsFor (c : Crystal R n) (r2 : R) (B : ℕ) (i j i0 : Fin n) :
    ((bondsFor c r2 B i j).countP fun b => decide (b.src = i0)) =
      if i = i0 then
        ((offsetsBox B).filter fun t => decide (pairWithin c r2 i j t)).length
      else 0 := by
  unfold bondsFor
  rw [List.countP_map]
  have hfn : ((fun b : Bond n => decide (b.src = i0)) ∘ fun t : Offset3 =>
      ({ src := i, dst := j, offset := t } : Bond n)) =
      fun _ : Offset3 => decide (i = i0) := rfl
  rw [hfn]
  by_cases h : i = i0
  · simp [h]
  · simp [h]

theorem countSrc_buildBonds (c : Crystal R n) (r2 : R) (B : ℕ) (i : Fin n) :
    ((buildBonds c r2 B).countP fun b => decide (b.src = i)) =
      bruteForceCount c r2 B i := by
  unfold buildBonds
  rw [countP_flatMap]
  have hinner : ∀ i' : Fin n,
      (((List.finRange n).flatMap fun j => bondsFor c r2 B i' j).countP
          fun b => decide (b.src = i)) =
        if i' = i then
          ∑ j : Fin n,
            ((offsetsBox B).filter fun t => decide (pairWithin c r2 i' j t)).length
        else 0 := by
    intro i'
    rw [countP_flatMap]
    have hmap : ((List.finRange n).map fun j =>
        ((bondsFor c r2 B i' j).countP fun b => decide (b.src = i))).sum =
        ∑ j : Fin n, ((bondsFor c r2 B i' j).countP fun b => decide (b.src = i)) :=
      (Fin.sum_univ_def _).symm
    rw [hmap]
    by_cases h : i' = i
    · rw [if_pos h]
      refine Finset.sum_congr rfl fun j _ => ?_
      rw [countP_bondsFor, if_pos h]
    · rw [if_neg h]
      refine Finset.sum_eq_zero fun j _ => ?_
      rw [countP_bondsFor, if_neg h]
  have hmap2 : ((List.finRange n).map fun i' =>
      (((List.finRange n).flatMap fun j => bondsFor c r2 B i' j).countP
        fun b => decide (b.src = i))).sum =
      ∑ i' : Fin n,
        (((List.finRange n).flatMap fun j => bondsFor c r2 B i' j).countP
          fun b => decide (b.src = i)) :=
    (Fin.sum_univ_def _).symm
  rw [hmap2]
  calc
    (∑ i' : Fin n,
        (((List.finRange n).flatMap fun j => bondsFor c r2 B i' j).countP
          fun b => decide (b.src = i)))
      = ∑ i' : Fin n, if i' = i then
          ∑ j : Fin n,
            ((offsetsBox B).filter fun t => decide (pairWithin c r2 i' j t)).length
        else 0 := Finset.sum_congr rfl fun i' _ => hinner i'
    _ = ∑ j : Fin n,
          ((offsetsBox B).filter fun t => decide (pairWithin c r2 i j t)).length := by
        simp
    _ = bruteForceCount c r2 B i := by
        unfold bruteForceCount
        refine Finset.sum_congr rfl fun j _ => ?_
        exact length_filter_eq_card (nodup_offsetsBox B) (fun _ => mem_offsetsBox) _

theorem mem_bondsFor {c : Crystal R n} {r2 : R} {B : ℕ} {i j : Fin n} {b : Bond n} :
    b ∈ bondsFor c r2 B i j ↔
      b.src = i ∧ b.dst = j ∧ b.offset ∈ offsetsBox B ∧ pairWithin c r2 i j b.offset := by
  obtain ⟨s, d, t⟩ := b
  unfold bondsFor
  simp only [List.mem_map, List.mem_filter, Bond.mk.injEq, decide_eq_true_eq]
  constructor
  · rintro ⟨t', ⟨ht', hp⟩, rfl, rfl, rfl⟩
    exact ⟨rfl, rfl, ht', hp⟩
  · rintro ⟨rfl, rfl, ht, hp⟩
    exact ⟨t, ⟨ht, hp⟩, rfl, rfl, rfl⟩

theorem mem_buildBonds {c : Crystal R n} {r2 : R} {B : ℕ} {b : Bond n} :
    b ∈ buildBonds c r2 B ↔
      b.offset ∈ boxFinset B ∧ pairWithin c r2 b.src b.dst b.offset := by
  unfold buildBonds
  simp only [List.mem_flatMap, List.mem_finRange, true_and]
  constructor
  · rintro ⟨i, j, hm⟩
    obtain ⟨hs, hd, ht, hp⟩ := mem_bondsFor.mp hm
    subst hs
    subst hd
    exact ⟨mem_offsetsBox.mp ht, hp⟩
  · rintro ⟨ht, hp⟩
    exact ⟨b.src, b.dst, mem_bondsFor.mpr ⟨rfl, rfl, mem_offsetsBox.mpr ht, hp⟩⟩

/-- Claim C1: the bond graph produced by the builder contains exactly the
directed bonds (i, j, t) whose image distance is within the cutoff — its
membership coincides with the defining predicate — and, for each atom, the
number of emitted bonds with that source equals the count obtained by the
independent brute-force enumeration of neighbor-image pairs within the
cutoff. -/
theorem buildBonds_matches_bruteforce (c : Crystal R n) (r2 : R) (B : ℕ) :
    (∀ b : Bond n, b ∈ buildBonds c r2 B ↔
        b.offset ∈ boxFinset B ∧ pairWithin c r2 b.src b.dst b.offset) ∧
      ∀ i : Fin n, ((buildBonds c r2 B).countP fun b => decide (b.src = i)) =
        bruteForceCount c r2 B i :=
  ⟨fun _ => mem_buildBonds, countSrc_buildBonds c r2 B⟩

/-- Squared length of a bond, recomputed from node positions, offset and
lattice. -/
def bondLenSq (c : Crystal R n) (b : Bond n) : R := imageDistSq c b.src b.dst b.offset

/-- Squared length of the lattice repeat vector with integer coefficients t. -/
def repeatDistSq (c : Crystal R n) (t : Offset3) : R := normSq (Cell.latVec c.cell t)

/-- Smallest squared lattice repeat distance over the nonzero offsets of the
search box (an upper bound on the true minimum over all nonzero offsets, so
any strict upper bound on it also bounds the true minimum). -/
def minRepeatSq (c : Crystal R n) (B : ℕ) : WithTop R :=
  (((boxFinset B).erase zeroOff).image (repeatDistSq c)).min

theorem imageDistSq_self (c : Crystal R n) (i : Fin n) (t : Offset3) :
    imageDistSq c i i t = repeatDistSq c t := by
  unfold imageDistSq repeatDistSq normSq
  obtain ⟨p1, p2, p3⟩ := c.pos i
  obtain ⟨v1, v2, v3⟩ := Cell.latVec c.cell t
  show (p1 - (p1 + v1)) * (p1 - (p1 + v1)) + (p2 - (p2 + v2)) * (p2 - (p2 + v2)) +
      (p3 - (p3 + v3)) * (p3 - (p3 + v3)) = v1 * v1 + v2 * v2 + v3 * v3
  ring

/-- Claim C2: every bond emitted by the builder has (squared) length within
the (squared) cutoff, and a self-bond — an atom bonded to its own periodic
image — can occur only when the cutoff exceeds half the smallest lattice
repeat distance: the self-bond forces the minimal squared repeat distance
d² to satisfy d² ≤ r² (hence d ≤ r) and d² < (2r)² (hence r > d / 2). -/
theorem bond_length_invariant (c : Crystal R n) {r2 : R} {B : ℕ} (b : Bond n)
    (hb : b ∈ buildBonds c r2 B) (hr : 0 < r2) :
    bondLenSq c b ≤ r2 ∧
      (b.src = b.dst →
        minRepeatSq c B ≤ (r2 : WithTop R) ∧
          minRepeatSq c B < ((4 * r2 : R) : WithTop R)) := by
  obtain ⟨hbox, hnz, hle⟩ := mem_buildBonds.mp hb
  refine ⟨hle, fun hsd => ?_⟩
  have htne : b.offset ≠ zeroOff := fun h => hnz ⟨hsd, h⟩
  have hrep : repeatDistSq c b.offset ≤ r2 := by
    have := hle
    unfold bondLenSq at this
    rw [hsd, imageDistSq_self] at this
    exact this
  have hmem : repeatDistSq c b.offset ∈
      ((boxFinset B).erase zeroOff).image (repeatDistSq c) :=
    Finset.mem_image_of_mem _ (Finset.mem_erase.mpr ⟨htne, hbox⟩)
  have hmin : minRepeatSq c B ≤ ((repeatDistSq c b.offset : R) : WithTop R) :=
    Finset.min_le hmem
  constructor
  · exact le_trans hmin (WithTop.coe_le_coe.mpr hrep)
  · refine lt_of_le_of_lt (le_trans hmin (WithTop.coe_le_coe.mpr hrep)) ?_
    exact WithTop.coe_lt_coe.mpr (by linarith)

/-- Unit cubic lattice over ℤ. -/
def cubeCell : Cell ℤ := ⟨(1, 0, 0), (0, 1, 0), (0, 0, 1)⟩

/-- One caesium atom at the origin of the unit cubic cell. -/
def monoCrystal : Crystal ℤ 1 := ⟨fun _ => 55, cubeCell, fun _ => (0, 0, 0)⟩

/-- Concrete self-bond of the single-atom crystal to its periodic image one
cell over in the first lattice direction. -/
def selfBond : Bond 1 := ⟨0, 0, (1, 0, 0)⟩

theorem bond_length_invariant_witness :
    selfBond ∈ buildBonds monoCrystal (2 : ℤ) 1 ∧ (0 : ℤ) < 2 ∧
      (bondLenSq monoCrystal selfBond ≤ 2 ∧
        (selfBond.src = selfBond.dst →
          minRepeatSq monoCrystal 1 ≤ ((2 : ℤ) : WithTop ℤ) ∧
            minRepeatSq monoCrystal 1 < ((4 * 2 : ℤ) : WithTop ℤ))) :=
  ⟨by decide, by decide, bond_length_invariant monoCrystal selfBond (by decide) (by decide)⟩

/-- Typed failure of the Periodic Graph Builder. -/
inductive GraphError where
  | emptyGraph
deriving DecidableEq

/-- Modelled from the spec: the checked entry of the Periodic Graph Builder
(§4.1, §7) — a structure yielding zero bonds fails with the EmptyGraphError
condition instead of passing an empty graph downstream. -/
def buildGraphChecked (c : Crystal R n) (r2 : R) (B : ℕ) :
    Except GraphError (List (Bond n)) :=
  match buildBonds c r2 B with
  | [] => Except.error GraphError.emptyGraph
  | b :: bs => Except.ok (b :: bs)

/-- Claim C3: the builder surfaces an EmptyGraphError exactly on structures
whose graph construction yields zero bonds within the cutoff, and otherwise
returns the (nonempty) bond graph unchanged — an empty graph is never passed
downstream as a success value. -/
theorem emptyGraph_error_iff (c : Crystal R n) (r2 : R) (B : ℕ) :
    (buildGraphChecked c r2 B = Except.error GraphError.emptyGraph ↔
        buildBonds c r2 B = []) ∧
      (buildBonds c r2 B ≠ [] →
        buildGraphChecked c r2 B = Except.ok (buildBonds c r2 B)) := by
  unfold buildGraphChecked
  cases h : buildBonds c r2 B with
  | nil => simp
  | cons b bs => simp

/-- Single atom in a large cubic cell: its nearest periodic image is at
squared distance 100, so with squared cutoff 1 the graph is empty. -/
def isolatedCrystal : Crystal ℤ 1 :=
  ⟨fun _ => 55, ⟨(10, 0, 0), (0, 10, 0), (0, 0, 10)⟩, fun _ => (0, 0, 0)⟩

theorem emptyGraph_error_witness :
    buildGraphChecked isolatedCrystal (1 : ℤ) 1 = Except.error GraphError.emptyGraph ∧
      buildGraphChecked monoCrystal (2 : ℤ) 1 = Except.ok (buildBonds monoCrystal 2 1) :=
  ⟨(emptyGraph_error_iff isolatedCrystal 1 1).1.mpr (by decide),
    (emptyGraph_error_iff monoCrystal 2 1).2 (by decide)⟩

/-- Modelled from the spec: the Feature Embedder, Message Passing Core and
Readout (§4.3–§4.5) with scalar hidden states — learned functions are
arbitrary parameters of the model, so every theorem below holds for all
learned weights: species embedding, fidelity/state embedding, per-bond
message function (of the two endpoint states, the global state and the bond
geometry), gated atom update, global-state update, per-atom readout and
final projection.  rounds is the fixed message-passing round count L and
stateDim the expected state-vector length. -/
structure GNN (R : Type) where
  rounds : ℕ
  stateDim : ℕ
  embed : ℕ → R
  stateEmbed : List R → R
  msg : R → R → R → R → R
  update : R → R → R
  gupdate : R → R → R
  atomOut : R → R
  readout : R → R → R

/-- Permutation-invariant aggregation of incoming messages at atom i: the sum
over all neighbor-image pairs of i within the cutoff (§4.4 step (b)). -/
def neighborAgg (m : GNN R) (c : Crystal R n) (r2 : R) (B : ℕ) (i : Fin n)
    (h : Fin n → R) (g : R) : R :=
  ∑ jt ∈ (Finset.univ ×ˢ boxFinset B).filter
      fun jt : Fin n × Offset3 => pairWithin c r2 i jt.1 jt.2,
    m.msg (h i) (h jt.1) g (imageDistSq c i jt.1 jt.2)

/-- Modelled from the spec: the message-passing state machine (§4.4) — atom
hidden states and the global state after l rounds, starting from the species
embeddings and the embedded state vector, each round updating every atom from
its aggregated messages and then the global state from the pooled atoms. -/
def mpState (m : GNN R) (c : Crystal R n) (r2 : R) (B : ℕ) (sv : List R) :
    ℕ → (Fin n → R) × R
  | 0 => (fun i => m.embed (c.species i), m.stateEmbed sv)
  | l + 1 =>
    let hg := mpState m c r2 B sv l
    let h2 : Fin n → R := fun i => m.update (hg.1 i) (neighborAgg m c r2 B i hg.1 hg.2)
    (h2, m.gupdate hg.2 (∑ i, h2 i))

/-- Modelled from the spec: total predicted property — readout of the pooled
per-atom outputs and the global state after the configured round count. -/
def energy (m : GNN R) (c : Crystal R n) (r2 : R) (B : ℕ) (sv : List R) : R :=
  m.readout (∑ i, m.atomOut ((mpState m c r2 B sv m.rounds).1 i))
    (mpState m c r2 B sv m.rounds).2

/-- Relabelling of the atoms of a Structure by a permutation, reordering the
species list and the position list consistently. -/
def permuteCrystal (π : Equiv.Perm (Fin n)) (c : Crystal R n) : Crystal R n :=
  ⟨fun i => c.species (π i), c.cell, fun i => c.pos (π i)⟩

theorem imageDistSq_permute (π : Equiv.Perm (Fin n)) (c : Crystal R n)
    (i j : Fin n) (t : Offset3) :
    imageDistSq (permuteCrystal π c) i j t = imageDistSq c (π i) (π j) t := rfl

theorem pairWithin_permute (π : Equiv.Perm (Fin n)) (c : Crystal R n) (r2 : R)
    (i j : Fin n) (t : Offset3) :
    pairWithin (permuteCrystal π c) r2 i j t ↔ pairWithin c r2 (π i) (π j) t := by
  unfold pairWithin
  rw [imageDistSq_permute]
  simp only [Equiv.apply_eq_iff_eq]

theorem neighborAgg_permute (m : GNN R) (π : Equiv.Perm (Fin n)) (c : Crystal R n)
    (r2 : R) (B : ℕ) (i : Fin n) (h : Fin n → R) (g : R) :
    neighborAgg m (permuteCrystal π c) r2 B i (fun k => h (π k)) g =
      neighborAgg m c r2 B (π i) h g := by
  unfold neighborAgg
  rw [Finset.sum_filter, Finset.sum_filter]
  refine Finset.sum_equiv (Equiv.prodCongr π (Equiv.refl Offset3)) ?_ ?_
  · intro jt
    simp [Finset.mem_product]
  · intro jt _
    simp only [Equiv.prodCongr_apply, Equiv.coe_refl, Prod.map]
    rw [if_congr (pairWithin_permute π c r2 i jt.1 jt.2) rfl rfl]
    rfl

theorem mpState_permute (m : GNN R) (π : Equiv.Perm (Fin n)) (c : Crystal R n)
    (r2 : R) (B : ℕ) (sv : List R) (l : ℕ) :
    mpState m (permuteCrystal π c) r2 B sv l =
      (fun i => (mpState m c r2 B sv l).1 (π i), (mpState m c r2 B sv l).2) := by
  induction l with
  | zero => rfl
  | succ l ih =>
    have hfst : ∀ i, (mpState m (permuteCrystal π c) r2 B sv (l + 1)).1 i =
        (mpState m c r2 B sv (l + 1)).1 (π i) := by
      intro i
      show m.update ((mpState m (permuteCrystal π c) r2 B sv l).1 i)
          (neighborAgg m (permuteCrystal π c) r2 B i
            (mpState m (permuteCrystal π c) r2 B sv l).1
            (mpState m (permuteCrystal π c) r2 B sv l).2) =
        m.update ((mpState m c r2 B sv l).1 (π i))
          (neighborAgg m c r2 B (π i) (mpState m c r2 B sv l).1
            (mpState m c r2 B sv l).2)
      rw [ih]
      exact congrArg _ (neighborAgg_permute m π c r2 B i _ _)
    have hsnd : (mpState m (permuteCrystal π c) r2 B sv (l + 1)).2 =
        (mpState m c r2 B sv (l + 1)).2 := by
      show m.gupdate (mpState m (permuteCrystal π c) r2 B sv l).2
          (∑ i, (mpState m (permuteCrystal π c) r2 B sv (l + 1)).1 i) =
        m.gupdate (mpState m c r2 B sv l).2
          (∑ i, (mpState m c r2 B sv (l + 1)).1 i)
      rw [ih]
      refine congrArg _ ?_
      calc
        (∑ i, (mpState m (permuteCrystal π c) r2 B sv (l + 1)).1 i)
            = ∑ i, (mpState m c r2 B sv (l + 1)).1 (π i) :=
          Finset.sum_congr rfl fun i _ => hfst i
        _ = ∑ i, (mpState m c r2 B sv (l + 1)).1 i :=
          Equiv.sum_comp π _
    exact Prod.ext_iff.mpr ⟨funext hfst, hsnd⟩

/-- Claim C4: relabelling the atoms of a Structure by any permutation, with
the species reordered by the same permutation, leaves the predicted total
property unchanged (exactly, in the ring model), for every choice of the
learned functions — because per-atom message aggregation and readout pooling
are permutation-invariant summations. -/
theorem energy_permutation_invariant (m : GNN R) (π : Equiv.Perm (Fin n))
    (c : Crystal R n) (r2 : R) (B : ℕ) (sv : List R) :
    energy m (permuteCrystal π c) r2 B sv = energy m c r2 B sv := by
  unfold energy
  rw [mpState_permute]
  dsimp only
  exact congrArg (fun s => m.readout s _)
    (Equiv.sum_comp π fun x => m.atomOut ((mpState m c r2 B sv m.rounds).1 x))

/-- Modelled from the spec: the model invocation contract (§6) —
predict(structure, state_feats=None); an omitted state vector defaults to a
zero vector of the model's configured state dimensionality. -/
def predictStructure (m : GNN R) (c : Crystal R n) (r2 : R) (B : ℕ)
    (stateFeats : Option (List R)) : R :=
  energy m c r2 B (stateFeats.getD (List.replicate m.stateDim 0))

/-- Claim C6: calling the prediction entry point with state_feats omitted
produces the same result as passing an explicit zero vector of the model's
state dimensionality. -/
theorem predict_default_state_feats (m : GNN R) (c : Crystal R n) (r2 : R)
    (B : ℕ) :
    predictStructure m c r2 B none =
      predictStructure m c r2 B (some (List.replicate m.stateDim 0)) := rfl

/-- Rigid translation of a Structure: every atomic position is shifted by the
same vector, species and lattice unchanged. -/
def translateCrystal (c0 : V3 R) (c : Crystal R n) : Crystal R n :=
  ⟨c.species, c.cell, fun i => c.pos i + c0⟩

theorem normSq_shift_cancel (x y v d : V3 R) :
    normSq (x + d - (y + d + v)) = normSq (x - (y + v)) := by
  obtain ⟨a1, a2, a3⟩ := x
  obtain ⟨b1, b2, b3⟩ := y
  obtain ⟨v1, v2, v3⟩ := v
  obtain ⟨d1, d2, d3⟩ := d
  show (a1 + d1 - (b1 + d1 + v1)) * (a1 + d1 - (b1 + d1 + v1)) +
      (a2 + d2 - (b2 + d2 + v2)) * (a2 + d2 - (b2 + d2 + v2)) +
      (a3 + d3 - (b3 + d3 + v3)) * (a3 + d3 - (b3 + d3 + v3)) =
    (a1 - (b1 + v1)) * (a1 - (b1 + v1)) + (a2 - (b2 + v2)) * (a2 - (b2 + v2)) +
      (a3 - (b3 + v3)) * (a3 - (b3 + v3))
  ring

theorem imageDistSq_translate (c0 : V3 R) (c : Crystal R n) (i j : Fin n)
    (t : Offset3) :
    imageDistSq (translateCrystal c0 c) i j t = imageDistSq c i j t := by
  show normSq (c.pos i + c0 - (c.pos j + c0 + Cell.latVec c.cell t)) =
    normSq (c.pos i - (c.pos j + Cell.latVec c.cell t))
  exact normSq_shift_cancel (c.pos i) (c.pos j) (Cell.latVec c.cell t) c0

theorem pairWithin_translate (c0 : V3 R) (c : Crystal R n) (r2 : R) (i j : Fin n)
    (t : Offset3) :
    pairWithin (translateCrystal c0 c) r2 i j t ↔ pairWithin c r2 i j t := by
  unfold pairWithin
  rw [imageDistSq_translate]

theorem neighborAgg_translate (m : GNN R) (c0 : V3 R) (c : Crystal R n) (r2 : R)
    (B : ℕ) (i : Fin n) (h : Fin n → R) (g : R) :
    neighborAgg m (translateCrystal c0 c) r2 B i h g = neighborAgg m c r2 B i h g := by
  unfold neighborAgg
  rw [Finset.filter_congr fun jt _ =>
    pairWithin_translate c0 c r2 i (jt : Fin n × Offset3).1 jt.2]
  refine Finset.sum_congr rfl fun jt _ => ?_
  rw [imageDistSq_translate]

theorem mpState_translate (m : GNN R) (c0 : V3 R) (c : Crystal R n) (r2 : R)
    (B : ℕ) (sv : List R) (l : ℕ) :
    mpState m (translateCrystal c0 c) r2 B sv l = mpState m c r2 B sv l := by
  induction l with
  | zero => rfl
  | succ l ih =>
    have hfst : ∀ i, (mpState m (translateCrystal c0 c) r2 B sv (l + 1)).1 i =
        (mpState m c r2 B sv (l + 1)).1 i := by
      intro i
      show m.update ((mpState m (translateCrystal c0 c) r2 B sv l).1 i)
          (neighborAgg m (translateCrystal c0 c) r2 B i
            (mpState m (translateCrystal c0 c) r2 B sv l).1
            (mpState m (translateCrystal c0 c) r2 B sv l).2) =
        m.update ((mpState m c r2 B sv l).1 i)
          (neighborAgg m c r2 B i (mpState m c r2 B sv l).1
            (mpState m c r2 B sv l).2)
      rw [ih, neighborAgg_translate]
    have hsnd : (mpState m (translateCrystal c0 c) r2 B sv (l + 1)).2 =
        (mpState m c r2 B sv (l + 1)).2 := by
      show m.gupdate (mpState m (translateCrystal c0 c) r2 B sv l).2
          (∑ i, (mpState m (translateCrystal c0 c) r2 B sv (l + 1)).1 i) =
        m.gupdate (mpState m c r2 B sv l).2
          (∑ i, (mpState m c r2 B sv (l + 1)).1 i)
      rw [ih]
      exact congrArg _ (Finset.sum_congr rfl fun i _ => hfst i)
    exact Prod.ext_iff.mpr ⟨funext hfst, hsnd⟩

/-- Translation invariance of the modelled pipeline (§8): rigidly translating
all atomic positions leaves the predicted property exactly unchanged, for
every model, cutoff, search box and state vector. -/
theorem energy_translation_invariant (m : GNN R) (c0 : V3 R) (c : Crystal R n)
    (r2 : R) (B : ℕ) (sv : List R) :
    energy m (translateCrystal c0 c) r2 B sv = energy m c r2 B sv := by
  unfold energy
  rw [mpState_translate]

/-- Modelled from the spec: an isolated (non-periodic) Structure — species
and Cartesian positions, no lattice (§4.1). -/
structure Molecule (R : Type) (n : ℕ) where
  species : Fin n → ℕ
  pos : Fin n → V3 R

/-- Degenerate lattice of an isolated structure: all basis vectors zero, so
every periodic image coincides with the atom itself. -/
def zeroCell : Cell R := ⟨(0, 0, 0), (0, 0, 0), (0, 0, 0)⟩

/-- View of an isolated structure as a Structure with the zero lattice. -/
def molCrystal (mol : Molecule R n) : Crystal R n := ⟨mol.species, zeroCell, mol.pos⟩

/-- Modelled from the spec: total energy of an isolated (non-periodic)
structure — the same message-passing pipeline of §4.1–§4.5 evaluated with the
lattice translation fixed at zero (zero cell, image search box collapsed to
t = 0), per §4.1. -/
def energyMol (m : GNN R) (r2 : R) (sv : List R) (mol : Molecule R n) : R :=
  energy m (molCrystal mol) r2 0 sv

/-- Displacement field moving every atom by the same vector. -/
def uniformDisp (v : V3 R) : Fin n → V3 R := fun _ => v

/-- Displacement field moving only atom k, by v. -/
def singleDisp (k : Fin n) (v : V3 R) : Fin n → V3 R := fun i => if i = k then v else 0

/-- Modelled from the spec: the force on atom k returned by the
Differentiable Potential Wrapper (§4.6) — the negative gradient of the total
message-passing energy with respect to atom k's Cartesian position, read off
the Fréchet derivative D of the energy at the current positions as the
directional derivatives along the three unit single-atom displacements. -/
noncomputable def forceFromGrad (D : (Fin n → V3 ℝ) →L[ℝ] ℝ) (k : Fin n) : V3 ℝ :=
  (-(D (singleDisp k (1, 0, 0))), -(D (singleDisp k (0, 1, 0))),
    -(D (singleDisp k (0, 0, 1))))

theorem grad_uniformDisp_zero (m : GNN ℝ) (sp : Fin n → ℕ) (r2 : ℝ) (sv : List ℝ)
    (p : Fin n → V3 ℝ) (D : (Fin n → V3 ℝ) →L[ℝ] ℝ)
    (hD : HasFDerivAt (fun q => energyMol m r2 sv ⟨sp, q⟩) D p) (v : V3 ℝ) :
    D (uniformDisp v) = 0 := by
  have hpath : HasDerivAt (fun t : ℝ => p + t • uniformDisp v) (uniformDisp v) 0 := by
    have h1 := (hasDerivAt_id (0 : ℝ)).smul_const (uniformDisp (n := n) v)
    rw [one_smul] at h1
    exact h1.const_add p
  have hD0 : HasFDerivAt (fun q => energyMol m r2 sv ⟨sp, q⟩) D
      (p + (0 : ℝ) • uniformDisp v) := by
    have h0 : p + (0 : ℝ) • uniformDisp (n := n) v = p := by simp
    rw [h0]
    exact hD
  have hcomp : HasDerivAt ((fun q => energyMol m r2 sv ⟨sp, q⟩) ∘
      fun t : ℝ => p + t • uniformDisp v) (D (uniformDisp v)) 0 :=
    hD0.comp_hasDerivAt 0 hpath
  have hconstfun : ((fun q => energyMol m r2 sv ⟨sp, q⟩) ∘
      fun t : ℝ => p + t • uniformDisp v) =
      fun _ : ℝ => energyMol m r2 sv ⟨sp, p⟩ := by
    funext t
    show energy m (translateCrystal (t • v) ⟨sp, zeroCell, p⟩) r2 0 sv =
      energy m (⟨sp, zeroCell, p⟩ : Crystal ℝ n) r2 0 sv
    exact energy_translation_invariant m (t • v) ⟨sp, zeroCell, p⟩ r2 0 sv
  rw [hconstfun] at hcomp
  exact hcomp.unique (hasDerivAt_const 0 _)

/-- Claim C5: for every isolated (non-periodic) Structure and every model,
at every position configuration where the message-passing energy of
§4.1–§4.5 has a Fréchet derivative, the forces returned by the Differentiable
Potential Wrapper — the negative gradient of that energy with respect to the
atomic Cartesian positions — sum to the zero vector over all atoms.  The
proof derives this from the exact translation invariance of the pipeline, not
from any pair-interaction assumption. -/
theorem forces_sum_zero (m : GNN ℝ) (sp : Fin n → ℕ) (r2 : ℝ) (sv : List ℝ)
    (p : Fin n → V3 ℝ) (D : (Fin n → V3 ℝ) →L[ℝ] ℝ)
    (hD : HasFDerivAt (fun q => energyMol m r2 sv ⟨sp, q⟩) D p) :
    (∑ k, forceFromGrad D k) = (0 : V3 ℝ) := by
  have hsingle : ∀ v : V3 ℝ, (∑ k, D (singleDisp k v)) = 0 := by
    intro v
    rw [← map_sum]
    have hdecomp : (∑ k, singleDisp k v) = uniformDisp (n := n) v := by
      funext i
      rw [Finset.sum_apply]
      show (∑ k, if i = k then v else 0) = v
      simp
    rw [hdecomp]
    exact grad_uniformDisp_zero m sp r2 sv p D hD v
  have hcomps : (∑ k, forceFromGrad D k) =
      (-(∑ k, D (singleDisp k ((1 : ℝ), 0, 0))),
        -(∑ k, D (singleDisp k ((0 : ℝ), 1, 0))),
        -(∑ k, D (singleDisp k ((0 : ℝ), 0, 1)))) := by
    refine Prod.ext_iff.mpr ⟨?_, Prod.ext_iff.mpr ⟨?_, ?_⟩⟩
    · rw [Prod.fst_sum]
      exact Finset.sum_neg_distrib
    · rw [Prod.snd_sum, Prod.fst_sum]
      exact Finset.sum_neg_distrib
    · rw [Prod.snd_sum, Prod.snd_sum]
      exact Finset.sum_neg_distrib
  rw [hcomps, hsingle ((1 : ℝ), 0, 0), hsingle ((0 : ℝ), 1, 0),
    hsingle ((0 : ℝ), 0, 1), neg_zero]
  rfl

/-- Concrete model over ℝ whose learned functions are all constantly zero, so
its energy is the constant zero function of the positions and its Fréchet
derivative is the zero functional. -/
def constGNN : GNN ℝ :=
  ⟨1, 1, fun _ => 0, fun _ => 0, fun _ _ _ _ => 0, fun _ _ => 0, fun _ _ => 0,
    fun _ => 0, fun _ _ => 0⟩

theorem forces_sum_zero_witness :
    HasFDerivAt (fun q : Fin 1 → V3 ℝ => energyMol constGNN 1 [] ⟨fun _ => 8, q⟩)
        (0 : (Fin 1 → V3 ℝ) →L[ℝ] ℝ) (fun _ => ((0 : ℝ), 0, 0)) ∧
      (∑ k : Fin 1, forceFromGrad (0 : (Fin 1 → V3 ℝ) →L[ℝ] ℝ) k) = (0 : V3 ℝ) :=
  ⟨hasFDerivAt_const 0 _,
    forces_sum_zero constGNN (fun _ => 8) 1 [] (fun _ => ((0 : ℝ), 0, 0)) 0
      (hasFDerivAt_const 0 _)⟩

/-- Typed input errors of the Feature Embedder (§4.3, §7). -/
inductive InputError where
  | unknownSpecies (z : ℕ)
deriving DecidableEq

/-- Modelled from the spec: species → embedding via a lookup table sized to
the element set the model was built for; a species outside that set fails
with the UnknownSpeciesError naming the offending element (§4.3). -/
def embedAtoms (elems : List ℕ) (tbl : ℕ → R) : List ℕ → Except InputError (List R)
  | [] => Except.ok []
  | z :: zs =>
    if z ∈ elems then
      match embedAtoms elems tbl zs with
      | Except.error e => Except.error e
      | Except.ok vs => Except.ok (tbl z :: vs)
    else Except.error (InputError.unknownSpecies z)

/-- Species of a Structure in atom order, as fed to the Feature Embedder. -/
def speciesList (c : Crystal R n) : List ℕ := (List.finRange n).map c.species

/-- Modelled from the spec: the checked prediction pipeline — the Feature
Embedder validates every species against the model's element set first, and
only on success does the numeric pipeline run (§7: input errors fail fast
before any tensor computation begins). -/
def predictChecked (m : GNN R) (elems : List ℕ) (c : Crystal R n) (r2 : R)
    (B : ℕ) (stateFeats : Option (List R)) : Except InputError R :=
  match embedAtoms elems m.embed (speciesList c) with
  | Except.error e => Except.error e
  | Except.ok _ => Except.ok (predictStructure m c r2 B stateFeats)

theorem embedAtoms_unknown {elems : List ℕ} (tbl : ℕ → R) :
    ∀ l : List ℕ, (∃ z ∈ l, z ∉ elems) →
      ∃ z, z ∉ elems ∧ embedAtoms elems tbl l = Except.error (InputError.unknownSpecies z)
  | [], h => absurd h (by simp)
  | z :: zs, h => by
    unfold embedAtoms
    by_cases hz : z ∈ elems
    · have hzs : ∃ z ∈ zs, z ∉ elems := by
        obtain ⟨w, hw, hwe⟩ := h
        rcases List.mem_cons.mp hw with rfl | hw2
        · exact absurd hz hwe
        · exact ⟨w, hw2, hwe⟩
      obtain ⟨w, hwe, heq⟩ := embedAtoms_unknown tbl zs hzs
      rw [if_pos hz, heq]
      exact ⟨w, hwe, rfl⟩
    · rw [if_neg hz]
      exact ⟨z, hz, rfl⟩

/-- Claim C9: for every Structure containing a species outside the element
set the model was built for, the pipeline fails with the typed
UnknownSpeciesError naming an element outside the set, produced by the
species check that gates the numeric computation. -/
theorem unknownSpecies_error (m : GNN R) {elems : List ℕ} (c : Crystal R n)
    (r2 : R) (B : ℕ) (stateFeats : Option (List R))
    (h : ∃ i : Fin n, c.species i ∉ elems) :
    ∃ z, z ∉ elems ∧
      predictChecked m elems c r2 B stateFeats =
        Except.error (InputError.unknownSpecies z) := by
  have hl : ∃ z ∈ speciesList c, z ∉ elems := by
    obtain ⟨i, hi⟩ := h
    exact ⟨c.species i, List.mem_map_of_mem _ (List.mem_finRange i), hi⟩
  obtain ⟨z, hze, heq⟩ := embedAtoms_unknown m.embed (speciesList c) hl
  refine ⟨z, hze, ?_⟩
  unfold predictChecked
  rw [heq]

/-- Concrete model instance over ℤ with trivial learned functions, used only
to evaluate the pipeline at concrete inputs. -/
def zeroGNN : GNN ℤ :=
  ⟨1, 1, fun _ => 0, fun _ => 0, fun _ _ _ _ => 0, fun _ _ => 0, fun _ _ => 0,
    fun _ => 0, fun _ _ => 0⟩

/-- Single oxygen atom (element 8) in the unit cubic cell — a species outside
the CsCl element set {55, 17}. -/
def oxygenCrystal : Crystal ℤ 1 := ⟨fun _ => 8, cubeCell, fun _ => (0, 0, 0)⟩

theorem unknownSpecies_error_witness :
    (∃ i : Fin 1, oxygenCrystal.species i ∉ [55, 17]) ∧
      ∃ z, z ∉ [55, 17] ∧
        predictChecked zeroGNN [55, 17] oxygenCrystal 2 1 none =
          Except.error (InputError.unknownSpecies z) :=
  ⟨⟨0, by decide⟩,
    unknownSpecies_error zeroGNN oxygenCrystal 2 1 none ⟨0, by decide⟩⟩

/-- Modelled from the spec: the persisted model configuration — cutoffs,
basis sizes, layer count, element list and normalization constants (§6). -/
structure ModelConfig (R : Type) where
  cutoff : R
  threeBodyCutoff : R
  numBasis : ℕ
  numLayers : ℕ
  elements : List ℕ
  outputMean : R
  outputStd : R
deriving DecidableEq

/-- Modelled from the spec: the learned parameter tensors — an embedding
table (one row of numBasis values per element) and per-layer weights. -/
structure ModelParams (R : Type) where
  embedTable : List R
  layerWeights : List (List R)
deriving DecidableEq

/-- Compatibility of a configuration with parameter tensor shapes: the
embedding table covers the element list and there is one weight block per
layer (§6: loading must fail explicitly on mismatch). -/
def paramsCompatible (cfg : ModelConfig R) (p : ModelParams R) : Prop :=
  p.embedTable.length = cfg.elements.length * cfg.numBasis ∧
    p.layerWeights.length = cfg.numLayers

instance (cfg : ModelConfig R) (p : ModelParams R) :
    Decidable (paramsCompatible cfg p) :=
  inferInstanceAs (Decidable (_ = _ ∧ _ = _))

/-- A trained model: configuration plus learned parameters. -/
structure TrainedModel (R : Type) where
  config : ModelConfig R
  params : ModelParams R
deriving DecidableEq

/-- Version tag written into every saved bundle. -/
def bundleVersion : ℕ := 1

/-- Modelled from the spec: the persisted model bundle layout — the
configuration object, the learned parameter tensors, and a
version/compatibility tag (§6). -/
structure ModelBundle (R : Type) where
  config : ModelConfig R
  params : ModelParams R
  version : ℕ
deriving DecidableEq

/-- Modelled from the spec: model.save(path) serializes the configuration,
parameters and version tag as a bundle. -/
def saveModel (m : TrainedModel R) : ModelBundle R :=
  ⟨m.config, m.params, bundleVersion⟩

/-- Typed failures of model loading (§6, §7). -/
inductive LoadError where
  | versionMismatch
  | shapeMismatch
deriving DecidableEq

/-- Modelled from the spec: matgl.load_model(path) reads the bundle back,
failing explicitly on a version tag mismatch or on a configuration whose
element list or basis sizes are incompatible with the parameter tensor
shapes, and otherwise reconstructing the model from the persisted
configuration and parameters. -/
def loadModel (b : ModelBundle R) : Except LoadError (TrainedModel R) :=
  if b.version = bundleVersion then
    if paramsCompatible b.config b.params then Except.ok ⟨b.config, b.params⟩
    else Except.error LoadError.shapeMismatch
  else Except.error LoadError.versionMismatch

/-- Claim C10: for every trained model whose parameters match its
configuration, saving and then loading succeeds and returns a model with the
same configuration and parameters as the saved one. -/
theorem save_load_roundtrip (m : TrainedModel R)
    (h : paramsCompatible m.config m.params) :
    loadModel (saveModel m) = Except.ok m := by
  unfold loadModel saveModel
  rw [if_pos rfl, if_pos h]

/-- Concrete one-element, one-layer trained model over ℤ with consistent
shapes. -/
def tinyModel : TrainedModel ℤ :=
  ⟨⟨5, 4, 2, 1, [55, 17], 0, 1⟩, ⟨[1, 2, 3, 4], [[7]]⟩⟩

theorem save_load_roundtrip_witness :
    paramsCompatible tinyModel.config tinyModel.params ∧
      loadModel (saveModel tinyModel) = Except.ok tinyModel :=
  ⟨by decide, save_load_roundtrip tinyModel (by decide)⟩

end MatglSpec
